import Mathlib

/-!
Verification development for the exchange-rate collector's pure numeric core:
the technical-indicator calculator, the buy-signal analyzer, the signal
message formatter and the sparkline renderer.

Conventions of the embedding:
* Python floats are modelled as exact rationals (`ℚ`); the one genuinely
  irrational quantity, the standard deviation inside the Bollinger bands,
  lives in `ℝ` via `Real.sqrt`.
* Python `int` parameters are modelled as `ℤ`; list slicing `xs[-k:]` is
  `lastN`, `xs[:-1]` is `List.dropLast`.
* A Python function that can raise is modelled with `Except String`; a
  function that returns `None` for "not enough data" is modelled with
  `Option`.
-/

set_option maxHeartbeats 1600000

/-- Python `xs[-k:]` for `k ≥ 0`: the last `k` elements (the whole list when
`k ≥ xs.length`). -/
def lastN (l : List ℚ) (k : ℕ) : List ℚ := l.drop (l.length - k)

/-- Model of `IndicatorCalculator.moving_average`: arithmetic mean of the last
`period` prices, `None` when `period ≤ 0` or fewer than `period` prices. -/
def moving_average (prices : List ℚ) (period : ℤ) : Option ℚ :=
  if (prices.length : ℤ) < period ∨ period ≤ 0 then none
  else some ((lastN prices period.toNat).sum / (period.toNat : ℚ))

/-- Day-over-day deltas `prices[i] - prices[i-1]`, oldest first. -/
def changesOf (prices : List ℚ) : List ℚ :=
  List.zipWith (fun a b => b - a) prices (prices.drop 1)

/-- One step of Wilder smoothing: `avg := (avg * (period - 1) + new) / period`
applied to the gain and loss component of the running pair. -/
def wilderStep (k : ℕ) (acc : ℚ × ℚ) (change : ℚ) : ℚ × ℚ :=
  ((acc.1 * ((k : ℚ) - 1) + max change 0) / (k : ℚ),
   (acc.2 * ((k : ℚ) - 1) + abs (min change 0)) / (k : ℚ))

/-- The smoothed (average gain, average loss) pair of `IndicatorCalculator.rsi`:
seed averages over the first `k` deltas, then Wilder smoothing over the rest. -/
def wilderAvgs (k : ℕ) (changes : List ℚ) : ℚ × ℚ :=
  (changes.drop k).foldl (wilderStep k)
    (((changes.take k).map (fun c => max c 0)).sum / (k : ℚ),
     ((changes.take k).map (fun c => abs (min c 0))).sum / (k : ℚ))

/-- Model of `IndicatorCalculator.rsi`: Wilder-smoothed relative strength index.
Needs `period + 1` prices; RSI is 100 when the smoothed average loss is 0. -/
def rsi (prices : List ℚ) (period : ℤ) : Option ℚ :=
  if (prices.length : ℤ) < period + 1 ∨ period ≤ 0 then none
  else
    let avgs := wilderAvgs period.toNat (changesOf prices)
    if avgs.2 = 0 then some 100
    else some (100 - 100 / (1 + avgs.1 / avgs.2))

/-- Model of `IndicatorCalculator.bollinger_bands`: middle = mean of the last `period`
prices, half-width = `num_std` times the population standard deviation
(`math.sqrt` of the variance divided by `period`). Returns
`(upper, middle, lower)`. -/
noncomputable def bollinger_bands (prices : List ℚ) (period : ℤ) (num_std : ℚ) :
    Option (ℝ × ℝ × ℝ) :=
  if (prices.length : ℤ) < period ∨ period ≤ 0 then none
  else
    let k := period.toNat
    let recent := lastN prices k
    let middle : ℚ := recent.sum / (k : ℚ)
    let variance : ℚ := (recent.map (fun p => (p - middle) ^ 2)).sum / (k : ℚ)
    let std : ℝ := Real.sqrt (variance : ℝ)
    some ((middle : ℝ) + (num_std : ℝ) * std, (middle : ℝ), (middle : ℝ) - (num_std : ℝ) * std)

/-- Model of `IndicatorCalculator.find_n_week_low`: `(min(prices), len(prices))`, or
`None` when fewer than `min_days` prices. Python's `min([])` raises
`ValueError`, modelled here as the `.error` branch. -/
def find_n_week_low (prices : List ℚ) (min_days : ℤ) : Except String (Option (ℚ × ℕ)) :=
  if (prices.length : ℤ) < min_days then .ok none
  else
    match prices with
    | [] => .error "min() arg is an empty sequence"
    | p :: ps => .ok (some (ps.foldl min p, (p :: ps).length))

/-- Model of `IndicatorCalculator.detect_ma_cross`: compares short/long moving averages
today (full list) and yesterday (list without its last element). -/
def detect_ma_cross (prices : List ℚ) (short_period long_period : ℤ) : Option String :=
  if (prices.length : ℤ) < long_period + 1 ∨ short_period ≤ 0 ∨ long_period ≤ 0 then none
  else if long_period ≤ short_period then none
  else
    let s := short_period.toNat
    let l := long_period.toNat
    let todayShort := (lastN prices s).sum / (s : ℚ)
    let todayLong := (lastN prices l).sum / (l : ℚ)
    let prev := prices.dropLast
    let prevShort := (lastN prev s).sum / (s : ℚ)
    let prevLong := (lastN prev l).sum / (l : ℚ)
    if prevShort < prevLong ∧ todayLong ≤ todayShort then some "golden_cross"
    else if prevLong ≤ prevShort ∧ todayShort < todayLong then some "dead_cross"
    else none

/-- The character for the decimal digit `d % 10`. -/
def digitCh (d : ℕ) : Char := Char.ofNat (48 + d % 10)

/-- Decimal digit characters of `n`, least significant first, with explicit
fuel so the recursion is structural. -/
def digitsAux : ℕ → ℕ → List Char
  | 0, _ => []
  | _ + 1, 0 => []
  | fuel + 1, n + 1 => digitCh ((n + 1) % 10) :: digitsAux fuel ((n + 1) / 10)

/-- Python `str(n)` for a natural number. -/
def natStr (n : ℕ) : String :=
  if n = 0 then "0" else ⟨(digitsAux n n).reverse⟩

/-- Insert a thousands separator before every third digit; input and output
are least-significant-first digit characters, `i` counts digits consumed. -/
def commasAux : ℕ → List Char → List Char
  | _, [] => []
  | i, c :: cs =>
    if 0 < i ∧ i % 3 = 0 then ',' :: c :: commasAux (i + 1) cs
    else c :: commasAux (i + 1) cs

/-- The integer part of Python's `format(x, ',')`: decimal digits grouped in
threes by commas. -/
def intPartStr (n : ℕ) : String :=
  if n = 0 then "0" else ⟨(commasAux 0 (digitsAux n n)).reverse⟩

/-- Two fractional digits of `m` (tens digit then ones digit). -/
def twoFrac (m : ℕ) : String := ⟨[digitCh (m / 10), digitCh m]⟩

/-- Models CPython's `format(x, ',.2f')` in exact rational arithmetic: round
to two decimal places, thousands separators in the integer part. -/
def formatRate (q : ℚ) : String :=
  let n : ℤ := round (q * 100)
  (if n < 0 then "-" else "") ++ intPartStr (n.natAbs / 100) ++ "." ++ twoFrac (n.natAbs % 100)

/-- Models CPython's `format(x, '.1f')` in exact rational arithmetic. -/
def fmtQ1 (q : ℚ) : String :=
  let n : ℤ := round (q * 10)
  (if n < 0 then "-" else "") ++ natStr (n.natAbs / 10) ++ "." ++ ⟨[digitCh (n.natAbs % 10)]⟩

/-- Models CPython's `format(x, '.2f')` for the real-valued band levels. -/
noncomputable def fmtReal2 (x : ℝ) : String :=
  let n : ℤ := round (x * 100)
  (if n < 0 then "-" else "") ++ natStr (n.natAbs / 100) ++ "." ++ twoFrac (n.natAbs % 100)

/-- The `Signal` dataclass of `buy_signal_analyzer.py`. `indicator_value`
lives in `ℝ` because the Bollinger band levels do. -/
structure Signal where
  currency : String
  signal_type : String
  message : String
  current_rate : ℚ
  indicator_value : Option ℝ

instance : Inhabited Signal := ⟨⟨"", "", "", 0, none⟩⟩

/-- Constant `BuySignalAnalyzer.TARGET_CURRENCIES`. -/
def TARGET_CURRENCIES : List String := ["USD", "JPY(100)"]

/-- Constant `BuySignalAnalyzer.MA_SHORT`. -/
def MA_SHORT : ℤ := 5

/-- Constant `BuySignalAnalyzer.MA_LONG`. -/
def MA_LONG : ℤ := 20

/-- Constant `BuySignalAnalyzer.RSI_PERIOD`. -/
def RSI_PERIOD : ℤ := 14

/-- Constant `BuySignalAnalyzer.RSI_OVERSOLD`. -/
def RSI_OVERSOLD : ℚ := 30

/-- Constant `BuySignalAnalyzer.RSI_OVERBOUGHT`. -/
def RSI_OVERBOUGHT : ℚ := 70

/-- Constant `BuySignalAnalyzer.BOLLINGER_PERIOD`. -/
def BOLLINGER_PERIOD : ℤ := 20

/-- Constant `BuySignalAnalyzer.BOLLINGER_STD`. -/
def BOLLINGER_STD : ℚ := 2

/-- Step 1 of `analyze_currency`: the N-week-low check. The `.error` branch
models the surrounding `try/except` (log and continue). -/
def nWeekLowSignals (currency : String) (today_rate : ℚ) (rates : List ℚ) : List Signal :=
  match find_n_week_low rates 10 with
  | .error _ => []
  | .ok none => []
  | .ok (some (lowest_price, num_days)) =>
    if today_rate ≤ lowest_price then
      [{ currency := currency, signal_type := "n_week_low",
         message := natStr (num_days / 5) ++ "주(" ++ natStr num_days ++
           " 영업일) 만에 최저가입니다. 매수를 고려해보세요",
         current_rate := today_rate, indicator_value := some (lowest_price : ℝ) }]
    else []

/-- Step 2 of `analyze_currency`: the MA-cross check. -/
def maCrossSignals (currency : String) (today_rate : ℚ) (rates : List ℚ) : List Signal :=
  let ma_cross := detect_ma_cross rates MA_SHORT MA_LONG
  if ma_cross = some "golden_cross" then
    [{ currency := currency, signal_type := "golden_cross",
       message := "골든크로스 발생 - 단기 MA가 장기 MA를 상향 돌파",
       current_rate := today_rate, indicator_value := none }]
  else if ma_cross = some "dead_cross" then
    [{ currency := currency, signal_type := "dead_cross",
       message := "데드크로스 발생 - 단기 MA가 장기 MA를 하향 돌파",
       current_rate := today_rate, indicator_value := none }]
  else []

/-- Step 3 of `analyze_currency`: the RSI check. -/
def rsiSignals (currency : String) (today_rate : ℚ) (rates : List ℚ) : List Signal :=
  match rsi rates RSI_PERIOD with
  | none => []
  | some rsi_value =>
    if rsi_value ≤ RSI_OVERSOLD then
      [{ currency := currency, signal_type := "rsi_oversold",
         message := "RSI " ++ fmtQ1 rsi_value ++ " - 과매도 구간, 반등 가능성",
         current_rate := today_rate, indicator_value := some (rsi_value : ℝ) }]
    else if RSI_OVERBOUGHT ≤ rsi_value then
      [{ currency := currency, signal_type := "rsi_overbought",
         message := "RSI " ++ fmtQ1 rsi_value ++ " - 과매수 구간, 주의 필요",
         current_rate := today_rate, indicator_value := some (rsi_value : ℝ) }]
    else []

open Classical in
/-- Step 4 of `analyze_currency`: the Bollinger band check. -/
noncomputable def bollingerSignals (currency : String) (today_rate : ℚ) (rates : List ℚ) :
    List Signal :=
  match bollinger_bands rates BOLLINGER_PERIOD BOLLINGER_STD with
  | none => []
  | some (upper, _middle, lower) =>
    if (today_rate : ℝ) ≤ lower then
      [{ currency := currency, signal_type := "bollinger_low",
         message := "볼린저 밴드 하단(" ++ fmtReal2 lower ++ ") 터치 - 매수 신호",
         current_rate := today_rate, indicator_value := some lower }]
    else if upper ≤ (today_rate : ℝ) then
      [{ currency := currency, signal_type := "bollinger_high",
         message := "볼린저 밴드 상단(" ++ fmtReal2 upper ++ ") 터치 - 과매수 주의",
         current_rate := today_rate, indicator_value := some upper }]
    else []

/-- The pure body of `BuySignalAnalyzer.analyze_currency` once the history
`rates` has been obtained: the four indicator checks in source order. -/
noncomputable def analyzeCurrencyRates (currency : String) (today_rate : ℚ) (rates : List ℚ) :
    List Signal :=
  nWeekLowSignals currency today_rate rates ++ maCrossSignals currency today_rate rates ++
    rsiSignals currency today_rate rates ++ bollingerSignals currency today_rate rates

/-- The injected price-history provider (`get_recent_rates` over the DB
connector): `provider currency days` is the oldest-first rate list, or an
exception. -/
def Provider : Type := String → ℤ → Except String (List ℚ)

/-- Model of `BuySignalAnalyzer.analyze_currency`: fetch `MA_LONG + 1` recent rates
(outside any `try`, so a provider exception propagates), then run the four
checks. -/
noncomputable def analyze_currency (provider : Provider) (currency : String) (today_rate : ℚ) :
    Except String (List Signal) :=
  (provider currency (MA_LONG + 1)).map (analyzeCurrencyRates currency today_rate)

/-- Model of `BuySignalAnalyzer.analyze`: loop over the tracked currencies in declared
order, skipping currencies absent from `today_rates` and swallowing any
exception of a single currency's analysis. -/
noncomputable def analyze (provider : Provider) (today_rates : String → Option ℚ) : List Signal :=
  TARGET_CURRENCIES.foldl
    (fun all_signals currency =>
      match today_rates currency with
      | none => all_signals
      | some today_rate =>
        match analyze_currency provider currency today_rate with
        | .ok signals => all_signals ++ signals
        | .error _ => all_signals)
    []

/-- Spec-side description of one tracked currency's contribution to
`analyze`: empty when the currency has no today-rate or its analysis raised,
its signal list otherwise. -/
noncomputable def analyzePart (provider : Provider) (today_rates : String → Option ℚ)
    (currency : String) : List Signal :=
  match today_rates currency with
  | none => []
  | some today_rate =>
    match analyze_currency provider currency today_rate with
    | .ok signals => signals
    | .error _ => []

/-- Mapping `SignalMessageFormatter.SIGNAL_EMOJI` as a lookup function. -/
def SIGNAL_EMOJI : String → Option String := fun t =>
  if t = "n_week_low" then some "📉"
  else if t = "golden_cross" then some "✨"
  else if t = "dead_cross" then some "⚠️"
  else if t = "rsi_oversold" then some "🔋"
  else if t = "rsi_overbought" then some "🔥"
  else if t = "bollinger_low" then some "📊"
  else if t = "bollinger_high" then some "📈"
  else none

/-- Mapping `SignalMessageFormatter.CURRENCY_EMOJI` as a lookup function. -/
def CURRENCY_EMOJI : String → Option String := fun c =>
  if c = "USD" then some "💵" else if c = "JPY(100)" then some "💴" else none

/-- Mapping `SignalMessageFormatter.CURRENCY_NAME` as a lookup function. -/
def CURRENCY_NAME : String → Option String := fun c =>
  if c = "USD" then some "달러" else if c = "JPY(100)" then some "엔화" else none

/-- Python `sep.join(lines)`. -/
def joinWith (sep : String) : List String → String
  | [] => ""
  | [line] => line
  | line :: rest => line ++ sep ++ joinWith sep rest

/-- Model of `SignalMessageFormatter._format_signal_line`. -/
def formatSignalLine (signal : Signal) : String :=
  (SIGNAL_EMOJI signal.signal_type).getD "📌" ++ " " ++ signal.message

/-- Model of `SignalMessageFormatter._format_currency_block`: header line followed by
one line per signal. `signals[0]` is modelled with `headI` (the block is only
ever built for a non-empty group). -/
def formatCurrencyBlock (currency : String) (signals : List Signal) : String :=
  let emoji := (CURRENCY_EMOJI currency).getD "💱"
  let name := (CURRENCY_NAME currency).getD currency
  let current_rate := signals.headI.current_rate
  let header := emoji ++ " <b>" ++ name ++ "(" ++ currency ++ ")</b>" ++
    " - 현재: " ++ formatRate current_rate ++ "원"
  joinWith "\n" (header :: signals.map formatSignalLine)

/-- The `grouped.setdefault(signal.currency, []).append(signal)` step over an
insertion-ordered association list (Python dicts preserve insertion order). -/
def addSignal (grouped : List (String × List Signal)) (signal : Signal) :
    List (String × List Signal) :=
  if grouped.any (fun p => p.1 = signal.currency) then
    grouped.map (fun p => if p.1 = signal.currency then (p.1, p.2 ++ [signal]) else p)
  else grouped ++ [(signal.currency, [signal])]

/-- The grouping loop of `format_signals`. -/
def groupByCurrency (signals : List Signal) : List (String × List Signal) :=
  signals.foldl addSignal []

/-- Model of `SignalMessageFormatter.format_signals`: banner line, then a blank line
and a currency block per group (the loop appending two lines per group is
modelled with `List.flatMap`). -/
def format_signals (signals : List Signal) : String :=
  if signals.isEmpty then ""
  else
    joinWith "\n" ("🚨 <b>환율 매수 신호 감지</b>" ::
      (groupByCurrency signals).flatMap (fun p => ["", formatCurrencyBlock p.1 p.2]))

/-- Constant `SPARK_BLOCKS` of `sparkline_generator.py`. -/
def SPARK_BLOCKS : String := "▁▂▃▄▅▆▇█"

/-- Model of `SparklineGenerator.generate`: empty list to empty string, constant list
to a run of the middle glyph, otherwise each value linearly rescaled onto the
eight-glyph ramp (`int` truncation equals `⌊·⌋.toNat` on these non-negative
arguments; the in-range index never hits `getD`'s fallback). -/
def SparklineGenerator.generate (values : List ℚ) : String :=
  match values with
  | [] => ""
  | v :: vs =>
    let min_val := vs.foldl min v
    let max_val := vs.foldl max v
    if min_val = max_val then ⟨List.replicate (v :: vs).length '▄'⟩
    else
      let scale : ℕ := SPARK_BLOCKS.length - 1
      ⟨(v :: vs).map (fun x =>
        SPARK_BLOCKS.data.getD ((⌊(x - min_val) / (max_val - min_val) * (scale : ℚ)⌋).toNat) '▁')⟩

/-- Spec-side glyph map of the sparkline claim:
`index = floor((v - min) / (max - min) * 7)` into the eight-glyph ramp. -/
def sparkChar (mn mx x : ℚ) : Char :=
  SPARK_BLOCKS.data.getD ((⌊(x - mn) / (mx - mn) * 7⌋).toNat) '▁'

/-- Spec-side first-appearance order of a list's elements. -/
def firstSeen : List String → List String
  | [] => []
  | c :: cs => c :: (firstSeen cs).filter (fun d => d ≠ c)

/-- Scanner for the closed allowed markup set: every `<` must open one of
`<b>`, `</b>`, `<code>`, `</code>`. -/
def tagOK : List Char → Bool
  | [] => true
  | c :: rest =>
    if c = '<' then
      (List.isPrefixOf ['b', '>'] rest || List.isPrefixOf ['/', 'b', '>'] rest ||
        List.isPrefixOf ['c', 'o', 'd', 'e', '>'] rest ||
        List.isPrefixOf ['/', 'c', 'o', 'd', 'e', '>'] rest) && tagOK rest
    else tagOK rest

/-- A string whose markup is within the formatter's allowed tag set. -/
def OnlyAllowedTags (s : String) : Prop := tagOK s.data = true

/-- Spec-side canonical grouping of the formatter claim: currencies in
first-appearance order, each paired with its signals in input order. -/
def groupedSpec (signals : List Signal) : List (String × List Signal) :=
  (firstSeen (signals.map (fun s => s.currency))).map
    (fun c => (c, signals.filter (fun s => s.currency = c)))

@[simp]
theorem toNat_lit (n : ℕ) : Int.toNat (no_index (OfNat.ofNat n)) = OfNat.ofNat n := rfl

theorem foldl_min_le_init {α} [LinearOrder α] (vs : List α) (v : α) :
    vs.foldl min v ≤ v := by
  induction vs generalizing v with
  | nil => exact le_rfl
  | cons a t ih => exact le_trans (ih (min v a)) (min_le_left v a)

theorem foldl_min_le {α} [LinearOrder α] (vs : List α) (v : α) :
    ∀ x ∈ v :: vs, vs.foldl min v ≤ x := by
  induction vs generalizing v with
  | nil =>
    intro x hx
    rcases List.mem_singleton.mp hx with rfl
    exact le_rfl
  | cons a t ih =>
    intro x hx
    rcases List.mem_cons.mp hx with rfl | hx
    · exact le_trans (foldl_min_le_init t (min x a)) (min_le_left x a)
    · rcases List.mem_cons.mp hx with rfl | hx
      · exact le_trans (foldl_min_le_init t (min v x)) (min_le_right v x)
      · exact ih (min v a) x (List.mem_cons_of_mem _ hx)

theorem foldl_min_mem {α} [LinearOrder α] (vs : List α) (v : α) :
    vs.foldl min v ∈ v :: vs := by
  induction vs generalizing v with
  | nil => exact List.mem_singleton.mpr rfl
  | cons a t ih =>
    have h := ih (min v a)
    rw [List.foldl_cons]
    rcases List.mem_cons.mp h with h | h
    · rw [h]
      rcases min_choice v a with h' | h' <;> rw [h']
      · exact List.mem_cons_self _ _
      · exact List.mem_cons_of_mem _ (List.mem_cons_self _ _)
    · exact List.mem_cons_of_mem _ (List.mem_cons_of_mem _ h)

theorem le_foldl_max_init {α} [LinearOrder α] (vs : List α) (v : α) :
    v ≤ vs.foldl max v := by
  induction vs generalizing v with
  | nil => exact le_rfl
  | cons a t ih => exact le_trans (le_max_left v a) (ih (max v a))

theorem le_foldl_max {α} [LinearOrder α] (vs : List α) (v : α) :
    ∀ x ∈ v :: vs, x ≤ vs.foldl max v := by
  induction vs generalizing v with
  | nil =>
    intro x hx
    rcases List.mem_singleton.mp hx with rfl
    exact le_rfl
  | cons a t ih =>
    intro x hx
    rcases List.mem_cons.mp hx with rfl | hx
    · exact le_trans (le_max_left x a) (le_foldl_max_init t (max x a))
    · rcases List.mem_cons.mp hx with rfl | hx
      · exact le_trans (le_max_right v x) (le_foldl_max_init t (max v x))
      · exact ih (max v a) x (List.mem_cons_of_mem _ hx)

/-- C6: as stated the claim is false: with an empty list and non-positive
`min_days` the length guard passes and Python's `min([])` raises
`ValueError`, the modelled `.error` outcome. -/
theorem find_n_week_low_cex :
    find_n_week_low [] 0 = .error "min() arg is an empty sequence" := rfl

/-- C6 (amended): `find_n_week_low` returns `(min(prices), len(prices))`
whenever at least `min_days` elements are supplied and the list is non-empty,
returns no result when fewer than `min_days` are supplied, and raises only in
the remaining case: an empty list together with `min_days ≤ 0`. -/
theorem find_n_week_low_spec (prices : List ℚ) (min_days : ℤ) :
    ((prices.length : ℤ) < min_days → find_n_week_low prices min_days = .ok none) ∧
    (prices = [] → min_days ≤ 0 →
      find_n_week_low prices min_days = .error "min() arg is an empty sequence") ∧
    (prices ≠ [] → min_days ≤ (prices.length : ℤ) →
      ∃ m, find_n_week_low prices min_days = .ok (some (m, prices.length)) ∧
        m ∈ prices ∧ ∀ x ∈ prices, m ≤ x) := by
  refine ⟨fun h => ?_, fun h h' => ?_, fun h h' => ?_⟩
  · rw [find_n_week_low.eq_def, if_pos h]
  · subst h
    rw [find_n_week_low.eq_def, if_neg (by simpa using h')]
  · match prices, h with
    | p :: ps, _ =>
      rw [find_n_week_low.eq_def, if_neg (not_lt.mpr h')]
      exact ⟨ps.foldl min p, rfl, foldl_min_mem ps p, foldl_min_le ps p⟩
/-- C3: `detect_ma_cross` classifies golden and dead crosses exactly by the
prior-day versus current-day short and long moving averages, and any
precondition violation yields no result instead of an error. -/
theorem detect_ma_cross_spec (prices : List ℚ) (short_period long_period : ℤ) :
    ((short_period ≤ 0 ∨ long_period ≤ 0 ∨ long_period ≤ short_period ∨
        (prices.length : ℤ) < long_period + 1) →
      detect_ma_cross prices short_period long_period = none) ∧
    (0 < short_period → short_period < long_period →
      long_period + 1 ≤ (prices.length : ℤ) →
      ∀ ts tl ps pl,
        moving_average prices short_period = some ts →
        moving_average prices long_period = some tl →
        moving_average prices.dropLast short_period = some ps →
        moving_average prices.dropLast long_period = some pl →
        (detect_ma_cross prices short_period long_period = some "golden_cross" ↔
          ps < pl ∧ tl ≤ ts) ∧
        (detect_ma_cross prices short_period long_period = some "dead_cross" ↔
          pl ≤ ps ∧ ts < tl)) := by
  constructor
  · intro h
    rw [detect_ma_cross]
    split_ifs with h1 h2 <;> first | rfl | (exfalso; omega)
  · intro hs hsl hlen ts tl ps pl hts htl hps hpl
    have hdrop : (prices.dropLast.length : ℤ) = (prices.length : ℤ) - 1 := by
      rw [List.length_dropLast]
      omega
    have hts' : ts = (lastN prices short_period.toNat).sum / (short_period.toNat : ℚ) := by
      rw [moving_average, if_neg (by omega)] at hts
      exact (Option.some.inj hts).symm
    have htl' : tl = (lastN prices long_period.toNat).sum / (long_period.toNat : ℚ) := by
      rw [moving_average, if_neg (by omega)] at htl
      exact (Option.some.inj htl).symm
    have hps' : ps = (lastN prices.dropLast short_period.toNat).sum / (short_period.toNat : ℚ) := by
      rw [moving_average, if_neg (by omega)] at hps
      exact (Option.some.inj hps).symm
    have hpl' : pl = (lastN prices.dropLast long_period.toNat).sum / (long_period.toNat : ℚ) := by
      rw [moving_average, if_neg (by omega)] at hpl
      exact (Option.some.inj hpl).symm
    rw [detect_ma_cross, if_neg (by omega), if_neg (by omega)]
    dsimp only
    rw [← hts', ← htl', ← hps', ← hpl']
    constructor
    · constructor
      · intro h
        split_ifs at h with h1 h2
        · exact h1
        · exact absurd (Option.some.inj h) (by decide)
      · intro h
        rw [if_pos h]
    · constructor
      · intro h
        split_ifs at h with h1 h2
        · exact absurd (Option.some.inj h) (by decide)
        · exact h2
      · intro h
        have h1 : ¬(ps < pl ∧ tl ≤ ts) := by
          intro h'
          rcases h with ⟨ha, hb⟩
          rcases h' with ⟨hc, hd⟩
          exact absurd (lt_of_lt_of_le hb hd) (lt_irrefl ts)
        rw [if_neg h1, if_pos h]
theorem wilderStep_nonneg (k : ℕ) (hk : 1 ≤ k) (acc : ℚ × ℚ) (c : ℚ)
    (h1 : 0 ≤ acc.1) (h2 : 0 ≤ acc.2) :
    0 ≤ (wilderStep k acc c).1 ∧ 0 ≤ (wilderStep k acc c).2 := by
  have hk1 : (0 : ℚ) ≤ (k : ℚ) - 1 := by
    have : (1 : ℚ) ≤ (k : ℚ) := by exact_mod_cast hk
    linarith
  have hkpos : (0 : ℚ) ≤ (k : ℚ) := by positivity
  constructor
  · exact div_nonneg (add_nonneg (mul_nonneg h1 hk1) (le_max_right c 0)) hkpos
  · exact div_nonneg (add_nonneg (mul_nonneg h2 hk1) (abs_nonneg _)) hkpos

theorem foldl_wilderStep_nonneg (k : ℕ) (hk : 1 ≤ k) (l : List ℚ) (acc : ℚ × ℚ)
    (h1 : 0 ≤ acc.1) (h2 : 0 ≤ acc.2) :
    0 ≤ (l.foldl (wilderStep k) acc).1 ∧ 0 ≤ (l.foldl (wilderStep k) acc).2 := by
  induction l generalizing acc with
  | nil => exact ⟨h1, h2⟩
  | cons c t ih =>
    have h := wilderStep_nonneg k hk acc c h1 h2
    exact ih (wilderStep k acc c) h.1 h.2

theorem wilderAvgs_nonneg (k : ℕ) (hk : 1 ≤ k) (changes : List ℚ) :
    0 ≤ (wilderAvgs k changes).1 ∧ 0 ≤ (wilderAvgs k changes).2 := by
  rw [wilderAvgs]
  refine foldl_wilderStep_nonneg k hk _ _ ?_ ?_
  · refine div_nonneg (List.sum_nonneg ?_) (by positivity)
    intro x hx
    rcases List.mem_map.mp hx with ⟨c, _, rfl⟩
    exact le_max_right c 0
  · refine div_nonneg (List.sum_nonneg ?_) (by positivity)
    intro x hx
    rcases List.mem_map.mp hx with ⟨c, _, rfl⟩
    exact abs_nonneg _

theorem changesOf_replicate (n : ℕ) (c : ℚ) :
    changesOf (List.replicate n c) = List.replicate (n - 1) 0 := by
  induction n with
  | zero => rfl
  | succ m ih =>
    cases m with
    | zero => rfl
    | succ j =>
      have step : changesOf (List.replicate (j + 2) c) =
          (c - c) :: changesOf (List.replicate (j + 1) c) := rfl
      rw [step, ih]
      simp [List.replicate_succ]

theorem foldl_wilderStep_zero (k j : ℕ) :
    (List.replicate j (0 : ℚ)).foldl (wilderStep k) (0, 0) = (0, 0) := by
  induction j with
  | zero => rfl
  | succ m ih =>
    rw [List.replicate_succ, List.foldl_cons]
    have hstep : wilderStep k ((0 : ℚ), (0 : ℚ)) 0 = (0, 0) := by
      simp [wilderStep]
    rw [hstep, ih]

theorem wilderAvgs_zero (k m : ℕ) :
    wilderAvgs k (List.replicate m (0 : ℚ)) = (0, 0) := by
  rw [wilderAvgs]
  have htake : (List.replicate m (0 : ℚ)).take k = List.replicate (min k m) 0 := by
    simp [List.take_replicate]
  have hdrop : (List.replicate m (0 : ℚ)).drop k = List.replicate (m - k) 0 := by
    simp [List.drop_replicate]
  rw [htake, hdrop]
  have hseed1 : ((List.replicate (min k m) (0 : ℚ)).map (fun c => max c 0)).sum / (k : ℚ) = 0 := by
    simp
  have hseed2 : ((List.replicate (min k m) (0 : ℚ)).map (fun c => abs (min c 0))).sum / (k : ℚ) = 0 := by
    simp
  rw [hseed1, hseed2]
  exact foldl_wilderStep_zero k (m - k)

theorem rsi_replicate (c : ℚ) (n : ℕ) (period : ℤ) (hp : 1 ≤ period)
    (hlen : period + 1 ≤ (n : ℤ)) :
    rsi (List.replicate n c) period = some 100 := by
  have hlen' : ((List.replicate n c).length : ℤ) = (n : ℤ) := by simp
  rw [rsi, if_neg (by rw [hlen']; omega)]
  dsimp only
  rw [changesOf_replicate, wilderAvgs_zero]
  simp

/-- C4: the RSI value, when computed, is always within `[0, 100]`; whenever
the smoothed average loss is exactly zero the result is exactly 100, in
particular on a completely flat series, with no division by zero. -/
theorem rsi_spec (prices : List ℚ) (period : ℤ) :
    (∀ v, rsi prices period = some v → 0 ≤ v ∧ v ≤ 100) ∧
    (1 ≤ period → period + 1 ≤ (prices.length : ℤ) →
      (wilderAvgs period.toNat (changesOf prices)).2 = 0 →
      rsi prices period = some 100) ∧
    (∀ (c : ℚ) (n : ℕ), 1 ≤ period → period + 1 ≤ (n : ℤ) →
      rsi (List.replicate n c) period = some 100) := by
  refine ⟨fun v hv => ?_, fun hp hlen hz => ?_, fun c n hp hlen => ?_⟩
  · rw [rsi] at hv
    dsimp only at hv
    split_ifs at hv with hguard hzero
    · rcases Option.some.inj hv with rfl
      norm_num
    · rcases Option.some.inj hv with rfl
      push_neg at hguard
      have hk : 1 ≤ period.toNat := by omega
      have hnn := wilderAvgs_nonneg period.toNat hk (changesOf prices)
      set g := (wilderAvgs period.toNat (changesOf prices)).1 with hg
      set l := (wilderAvgs period.toNat (changesOf prices)).2 with hl
      have hlpos : 0 < l := lt_of_le_of_ne hnn.2 (fun h => hzero h.symm)
      have hrs : 0 ≤ g / l := div_nonneg hnn.1 (le_of_lt hlpos)
      have h1rs : (1 : ℚ) ≤ 1 + g / l := by linarith
      have hdivpos : 0 < 100 / (1 + g / l) := by positivity
      have hdivle : 100 / (1 + g / l) ≤ 100 := div_le_self (by norm_num) h1rs
      constructor <;> linarith
  · rw [rsi, if_neg (by omega)]
    dsimp only
    rw [if_pos hz]
  · exact rsi_replicate c n period hp hlen
theorem lastN_replicate (n k : ℕ) (c : ℚ) (hk : k ≤ n) :
    lastN (List.replicate n c) k = List.replicate k c := by
  rw [lastN]
  simp only [List.length_replicate, List.drop_replicate]
  congr 1
  omega

theorem sum_replicate_q (k : ℕ) (c : ℚ) : (List.replicate k c).sum = (k : ℚ) * c := by
  rw [List.sum_replicate, nsmul_eq_mul]

theorem cast_sq_sum (l : List ℚ) (m : ℚ) :
    (((l.map (fun p => (p - m) ^ 2)).sum : ℚ) : ℝ) =
    (l.map (fun p : ℚ => ((p : ℝ) - (m : ℝ)) ^ 2)).sum := by
  induction l with
  | nil => simp
  | cons a t ih =>
    simp only [List.map_cons, List.sum_cons, Rat.cast_add]
    rw [ih]
    push_cast
    ring

theorem cast_var (l : List ℚ) (m : ℚ) (k : ℕ) :
    (((l.map (fun p => (p - m) ^ 2)).sum / (k : ℚ) : ℚ) : ℝ) =
    (l.map (fun p : ℚ => ((p : ℝ) - (m : ℝ)) ^ 2)).sum / (k : ℝ) := by
  rw [Rat.cast_div, cast_sq_sum]
  norm_cast

theorem bollinger_bands_replicate (c : ℚ) (n : ℕ) (period : ℤ) (num_std : ℚ)
    (hp : 1 ≤ period) (hlen : period ≤ (n : ℤ)) :
    bollinger_bands (List.replicate n c) period num_std =
      some ((c : ℝ), (c : ℝ), (c : ℝ)) := by
  have hlen' : ((List.replicate n c).length : ℤ) = (n : ℤ) := by simp
  rw [bollinger_bands, if_neg (by rw [hlen']; omega)]
  dsimp only
  have hkn : period.toNat ≤ n := by omega
  rw [lastN_replicate n period.toNat c hkn]
  have hkq : ((period.toNat : ℚ)) ≠ 0 := by
    rw [Nat.cast_ne_zero]
    omega
  have hmid : (List.replicate period.toNat c).sum / (period.toNat : ℚ) = c := by
    rw [sum_replicate_q, mul_div_cancel_left₀ c hkq]
  rw [hmid]
  have hzero : (List.replicate period.toNat c).map (fun p => (p - c) ^ 2) =
      List.replicate period.toNat 0 := by
    rw [List.map_replicate]
    simp
  rw [hzero]
  simp [Real.sqrt_zero]

/-- C5: the Bollinger middle band is the arithmetic mean of the last `period`
prices (the moving average), the half-width is `num_std` times the population
standard deviation of that window (variance divided by `period`), the band is
symmetric around the middle, and a constant window collapses to three equal
bands. -/
theorem bollinger_bands_spec (prices : List ℚ) (period : ℤ) (num_std : ℚ) :
    (1 ≤ period → period ≤ (prices.length : ℤ) →
      ∃ u m l, bollinger_bands prices period num_std = some (u, m, l) ∧
        (∃ mq, moving_average prices period = some mq ∧ m = (mq : ℝ)) ∧
        u = m + (num_std : ℝ) *
          Real.sqrt (((lastN prices period.toNat).map
            (fun p : ℚ => ((p : ℝ) - m) ^ 2)).sum / (period.toNat : ℝ)) ∧
        l = m - (num_std : ℝ) *
          Real.sqrt (((lastN prices period.toNat).map
            (fun p : ℚ => ((p : ℝ) - m) ^ 2)).sum / (period.toNat : ℝ)) ∧
        u - m = m - l) ∧
    (∀ (c : ℚ) (n : ℕ), 1 ≤ period → period ≤ (n : ℤ) →
      bollinger_bands (List.replicate n c) period num_std =
        some ((c : ℝ), (c : ℝ), (c : ℝ))) := by
  constructor
  · intro hp hlen
    rw [bollinger_bands, if_neg (by omega)]
    dsimp only
    set k := period.toNat with hk
    set middle : ℚ := (lastN prices k).sum / (k : ℚ) with hmid
    have hvar := cast_var (lastN prices k) middle k
    refine ⟨_, _, _, rfl, ⟨middle, ?_, rfl⟩, ?_, ?_, by ring⟩
    · rw [moving_average, if_neg (by omega)]
    · rw [hvar]
    · rw [hvar]
  · exact fun c n hp hlen => bollinger_bands_replicate c n period num_std hp hlen
theorem foldl_max_mem {α} [LinearOrder α] (vs : List α) (v : α) :
    vs.foldl max v ∈ v :: vs := by
  induction vs generalizing v with
  | nil => simp
  | cons a t ih =>
    have h := ih (max v a)
    rw [List.foldl_cons]
    rcases List.mem_cons.mp h with h | h
    · rw [h]
      rcases max_choice v a with h' | h' <;> rw [h']
      · exact List.mem_cons_self _ _
      · exact List.mem_cons_of_mem _ (List.mem_cons_self _ _)
    · exact List.mem_cons_of_mem _ (List.mem_cons_of_mem _ h)

theorem spark_blocks_len : SPARK_BLOCKS.length - 1 = 7 := rfl

theorem spark_scale_cast : ((SPARK_BLOCKS.length - 1 : ℕ) : ℚ) = 7 := by
  rw [spark_blocks_len]
  norm_num

/-- C9: the sparkline of an empty list is empty; a constant list renders the
middle glyph repeated to the input length; otherwise each value maps to the
glyph at index `⌊(v - min) / (max - min) * 7⌋`, the minimum hits the lowest
glyph, the maximum the highest, every index stays within the eight-glyph
ramp, and the output length always equals the input length. -/
theorem sparkline_generate_spec :
    SparklineGenerator.generate [] = "" ∧
    (∀ (v : ℚ) (vs : List ℚ), (∀ x ∈ v :: vs, x = v) →
      SparklineGenerator.generate (v :: vs) = ⟨List.replicate (v :: vs).length '▄'⟩) ∧
    (∀ (v : ℚ) (vs : List ℚ), vs.foldl min v ≠ vs.foldl max v →
      (SparklineGenerator.generate (v :: vs)).data =
        (v :: vs).map (sparkChar (vs.foldl min v) (vs.foldl max v)) ∧
      (∀ x ∈ v :: vs,
        (x = vs.foldl min v → sparkChar (vs.foldl min v) (vs.foldl max v) x = '▁') ∧
        (x = vs.foldl max v → sparkChar (vs.foldl min v) (vs.foldl max v) x = '█') ∧
        (⌊(x - vs.foldl min v) / (vs.foldl max v - vs.foldl min v) * 7⌋).toNat ≤ 7)) ∧
    (∀ values : List ℚ, (SparklineGenerator.generate values).length = values.length) := by
  refine ⟨rfl, fun v vs hall => ?_, fun v vs hne => ?_, fun values => ?_⟩
  · have hmin : vs.foldl min v = v := hall _ (foldl_min_mem vs v)
    have hmax : vs.foldl max v = v := hall _ (foldl_max_mem vs v)
    rw [SparklineGenerator.generate]
    rw [if_pos (hmin.trans hmax.symm)]
  · set mn := vs.foldl min v with hmn
    set mx := vs.foldl max v with hmx
    have hmnle : ∀ x ∈ v :: vs, mn ≤ x := foldl_min_le vs v
    have hlemx : ∀ x ∈ v :: vs, x ≤ mx := le_foldl_max vs v
    have hmnmx : mn < mx := by
      have h1 : mn ≤ v := foldl_min_le_init vs v
      have h2 : v ≤ mx := le_foldl_max_init vs v
      exact lt_of_le_of_ne (le_trans h1 h2) hne
    have hd : (0 : ℚ) < mx - mn := by linarith
    constructor
    · rw [SparklineGenerator.generate, if_neg hne]
      dsimp only
      rw [spark_scale_cast]
      rfl
    · intro x hx
      refine ⟨fun hxmn => ?_, fun hxmx => ?_, ?_⟩
      · subst hxmn
        rw [sparkChar]
        rw [sub_self, zero_div, zero_mul]
        rfl
      · subst hxmx
        rw [sparkChar]
        rw [div_self (ne_of_gt hd), one_mul]
        norm_num
        rfl
      · have h1 : (x - mn) / (mx - mn) ≤ 1 := by
          rw [div_le_one hd]
          have := hlemx x hx
          linarith
        have h2 : (x - mn) / (mx - mn) * 7 ≤ 7 := by linarith
        have h3 : ⌊(x - mn) / (mx - mn) * 7⌋ ≤ 7 := by
          have := Int.floor_le_floor h2
          simpa using this
        omega
  · match values with
    | [] => rfl
    | v :: vs =>
      rw [SparklineGenerator.generate]
      dsimp only
      split_ifs with h
      · show (List.replicate (v :: vs).length '▄').length = _
        simp
      · show ((v :: vs).map _).length = _
        simp
theorem mem_nWeekLowSignals (c : String) (r : ℚ) (rates : List ℚ) :
    ∀ s ∈ nWeekLowSignals c r rates, s.currency = c ∧ s.current_rate = r ∧
      s.signal_type = "n_week_low" ∧
      ∃ low n, find_n_week_low rates 10 = .ok (some (low, n)) ∧ r ≤ low ∧
        s.indicator_value = some (low : ℝ) := by
  intro s hs
  rw [nWeekLowSignals.eq_def] at hs
  split at hs
  · simp at hs
  · simp at hs
  · rename_i low n heq
    split_ifs at hs with hr
    · rcases List.mem_singleton.mp hs with rfl
      exact ⟨rfl, rfl, rfl, low, n, heq, hr, rfl⟩
    · simp at hs

theorem nWeekLowSignals_emit (c : String) (r : ℚ) (rates : List ℚ) (low : ℚ) (n : ℕ)
    (h : find_n_week_low rates 10 = .ok (some (low, n))) (hr : r ≤ low) :
    ∃ s ∈ nWeekLowSignals c r rates, s.signal_type = "n_week_low" := by
  rw [nWeekLowSignals.eq_def, h]
  dsimp only
  rw [if_pos hr]
  exact ⟨_, List.mem_singleton.mpr rfl, rfl⟩

theorem mem_maCrossSignals (c : String) (r : ℚ) (rates : List ℚ) :
    ∀ s ∈ maCrossSignals c r rates, s.currency = c ∧ s.current_rate = r ∧
      (s.signal_type = "golden_cross" ∨ s.signal_type = "dead_cross") := by
  intro s hs
  rw [maCrossSignals.eq_def] at hs
  dsimp only at hs
  split_ifs at hs with h1 h2
  · rcases List.mem_singleton.mp hs with rfl
    exact ⟨rfl, rfl, Or.inl rfl⟩
  · rcases List.mem_singleton.mp hs with rfl
    exact ⟨rfl, rfl, Or.inr rfl⟩
  · simp at hs

theorem mem_rsiSignals (c : String) (r : ℚ) (rates : List ℚ) :
    ∀ s ∈ rsiSignals c r rates, s.currency = c ∧ s.current_rate = r ∧
      ((s.signal_type = "rsi_oversold" ∧
        ∃ v, rsi rates RSI_PERIOD = some v ∧ v ≤ RSI_OVERSOLD ∧
          s.indicator_value = some (v : ℝ)) ∨
       (s.signal_type = "rsi_overbought" ∧
        ∃ v, rsi rates RSI_PERIOD = some v ∧ RSI_OVERBOUGHT ≤ v ∧
          s.indicator_value = some (v : ℝ))) := by
  intro s hs
  rw [rsiSignals.eq_def] at hs
  split at hs
  · simp at hs
  · rename_i v heq
    split_ifs at hs with h1 h2
    · rcases List.mem_singleton.mp hs with rfl
      exact ⟨rfl, rfl, Or.inl ⟨rfl, v, heq, h1, rfl⟩⟩
    · rcases List.mem_singleton.mp hs with rfl
      exact ⟨rfl, rfl, Or.inr ⟨rfl, v, heq, h2, rfl⟩⟩
    · simp at hs

theorem rsiSignals_emit_low (c : String) (r : ℚ) (rates : List ℚ) (v : ℚ)
    (h : rsi rates RSI_PERIOD = some v) (hv : v ≤ RSI_OVERSOLD) :
    ∃ s ∈ rsiSignals c r rates, s.signal_type = "rsi_oversold" := by
  rw [rsiSignals.eq_def, h]
  dsimp only
  rw [if_pos hv]
  exact ⟨_, List.mem_singleton.mpr rfl, rfl⟩

theorem rsiSignals_emit_high (c : String) (r : ℚ) (rates : List ℚ) (v : ℚ)
    (h : rsi rates RSI_PERIOD = some v) (hv : RSI_OVERBOUGHT ≤ v) :
    ∃ s ∈ rsiSignals c r rates, s.signal_type = "rsi_overbought" := by
  have hnot : ¬ v ≤ RSI_OVERSOLD := by
    rw [RSI_OVERSOLD]
    rw [RSI_OVERBOUGHT] at hv
    linarith
  rw [rsiSignals.eq_def, h]
  dsimp only
  rw [if_neg hnot, if_pos hv]
  exact ⟨_, List.mem_singleton.mpr rfl, rfl⟩

theorem mem_bollingerSignals (c : String) (r : ℚ) (rates : List ℚ) :
    ∀ s ∈ bollingerSignals c r rates, s.currency = c ∧ s.current_rate = r ∧
      ((s.signal_type = "bollinger_low" ∧
        ∃ u m l, bollinger_bands rates BOLLINGER_PERIOD BOLLINGER_STD = some (u, m, l) ∧
          (r : ℝ) ≤ l ∧ s.indicator_value = some l) ∨
       (s.signal_type = "bollinger_high" ∧
        ∃ u m l, bollinger_bands rates BOLLINGER_PERIOD BOLLINGER_STD = some (u, m, l) ∧
          u ≤ (r : ℝ) ∧ ¬((r : ℝ) ≤ l) ∧ s.indicator_value = some u)) := by
  intro s hs
  rw [bollingerSignals.eq_def] at hs
  split at hs
  · simp at hs
  · rename_i bands u m l heq
    split_ifs at hs with h1 h2
    · rcases List.mem_singleton.mp hs with rfl
      exact ⟨rfl, rfl, Or.inl ⟨rfl, u, m, l, heq, h1, rfl⟩⟩
    · rcases List.mem_singleton.mp hs with rfl
      exact ⟨rfl, rfl, Or.inr ⟨rfl, u, m, l, heq, h2, h1, rfl⟩⟩
    · simp at hs

theorem bollingerSignals_emit_low (c : String) (r : ℚ) (rates : List ℚ) (u m l : ℝ)
    (h : bollinger_bands rates BOLLINGER_PERIOD BOLLINGER_STD = some (u, m, l))
    (hr : (r : ℝ) ≤ l) :
    ∃ s ∈ bollingerSignals c r rates, s.signal_type = "bollinger_low" := by
  rw [bollingerSignals.eq_def, h]
  dsimp only
  rw [if_pos hr]
  exact ⟨_, List.mem_singleton.mpr rfl, rfl⟩

theorem bollingerSignals_emit_high (c : String) (r : ℚ) (rates : List ℚ) (u m l : ℝ)
    (h : bollinger_bands rates BOLLINGER_PERIOD BOLLINGER_STD = some (u, m, l))
    (hu : u ≤ (r : ℝ)) (hl : ¬((r : ℝ) ≤ l)) :
    ∃ s ∈ bollingerSignals c r rates, s.signal_type = "bollinger_high" := by
  rw [bollingerSignals.eq_def, h]
  dsimp only
  rw [if_neg hl, if_pos hu]
  exact ⟨_, List.mem_singleton.mpr rfl, rfl⟩

theorem mem_analyzeCurrencyRates_iff (c : String) (r : ℚ) (rates : List ℚ) (s : Signal) :
    s ∈ analyzeCurrencyRates c r rates ↔
      s ∈ nWeekLowSignals c r rates ∨ s ∈ maCrossSignals c r rates ∨
      s ∈ rsiSignals c r rates ∨ s ∈ bollingerSignals c r rates := by
  rw [analyzeCurrencyRates]
  simp [List.mem_append, or_assoc]

theorem analyzeCurrencyRates_mem_cases (c : String) (r : ℚ) (rates : List ℚ) :
    ∀ s ∈ analyzeCurrencyRates c r rates,
      s.currency = c ∧ s.current_rate = r ∧
      ((s.signal_type = "n_week_low" ∧
          ∃ low n, find_n_week_low rates 10 = .ok (some (low, n)) ∧ r ≤ low ∧
            s.indicator_value = some (low : ℝ)) ∨
       (s.signal_type = "golden_cross" ∨ s.signal_type = "dead_cross") ∨
       (s.signal_type = "rsi_oversold" ∧
          ∃ v, rsi rates RSI_PERIOD = some v ∧ v ≤ RSI_OVERSOLD ∧
            s.indicator_value = some (v : ℝ)) ∨
       (s.signal_type = "rsi_overbought" ∧
          ∃ v, rsi rates RSI_PERIOD = some v ∧ RSI_OVERBOUGHT ≤ v ∧
            s.indicator_value = some (v : ℝ)) ∨
       (s.signal_type = "bollinger_low" ∧
          ∃ u m l, bollinger_bands rates BOLLINGER_PERIOD BOLLINGER_STD = some (u, m, l) ∧
            (r : ℝ) ≤ l ∧ s.indicator_value = some l) ∨
       (s.signal_type = "bollinger_high" ∧
          ∃ u m l, bollinger_bands rates BOLLINGER_PERIOD BOLLINGER_STD = some (u, m, l) ∧
            u ≤ (r : ℝ) ∧ ¬((r : ℝ) ≤ l) ∧ s.indicator_value = some u)) := by
  intro s hs
  rcases (mem_analyzeCurrencyRates_iff c r rates s).mp hs with h | h | h | h
  · rcases mem_nWeekLowSignals c r rates s h with ⟨h1, h2, h3, low, n, h4, h5, h6⟩
    exact ⟨h1, h2, Or.inl ⟨h3, low, n, h4, h5, h6⟩⟩
  · rcases mem_maCrossSignals c r rates s h with ⟨h1, h2, h3⟩
    exact ⟨h1, h2, Or.inr (Or.inl h3)⟩
  · rcases mem_rsiSignals c r rates s h with ⟨h1, h2, h3 | h3⟩
    · rcases h3 with ⟨h3, v, h4, h5, h6⟩
      exact ⟨h1, h2, Or.inr (Or.inr (Or.inl ⟨h3, v, h4, h5, h6⟩))⟩
    · rcases h3 with ⟨h3, v, h4, h5, h6⟩
      exact ⟨h1, h2, Or.inr (Or.inr (Or.inr (Or.inl ⟨h3, v, h4, h5, h6⟩)))⟩
  · rcases mem_bollingerSignals c r rates s h with ⟨h1, h2, h3 | h3⟩
    · rcases h3 with ⟨h3, u, m, l, h4, h5, h6⟩
      exact ⟨h1, h2, Or.inr (Or.inr (Or.inr (Or.inr (Or.inl ⟨h3, u, m, l, h4, h5, h6⟩))))⟩
    · rcases h3 with ⟨h3, u, m, l, h4, h5, h6, h7⟩
      exact ⟨h1, h2, Or.inr (Or.inr (Or.inr (Or.inr (Or.inr ⟨h3, u, m, l, h4, h5, h6, h7⟩))))⟩

/-- C1 (amended): every signal of the analyzer's per-currency body carries the
requested currency and today's rate; `rsi_oversold` is emitted iff RSI ≤ 30,
`rsi_overbought` iff RSI ≥ 70, `bollinger_low` iff the rate is at or below
the lower band, `bollinger_high` iff the rate is at or above the upper band
and not also at or below the lower band (the source's `elif`), `n_week_low`
iff the low result is available and the rate is at or below the lowest value;
each emitted signal carries the corresponding indicator value. -/
theorem analyzeCurrencyRates_spec (c : String) (r : ℚ) (rates : List ℚ) :
    (∀ s ∈ analyzeCurrencyRates c r rates, s.currency = c ∧ s.current_rate = r) ∧
    ((∃ s ∈ analyzeCurrencyRates c r rates, s.signal_type = "rsi_oversold") ↔
      ∃ v, rsi rates RSI_PERIOD = some v ∧ v ≤ RSI_OVERSOLD) ∧
    ((∃ s ∈ analyzeCurrencyRates c r rates, s.signal_type = "rsi_overbought") ↔
      ∃ v, rsi rates RSI_PERIOD = some v ∧ RSI_OVERBOUGHT ≤ v) ∧
    ((∃ s ∈ analyzeCurrencyRates c r rates, s.signal_type = "bollinger_low") ↔
      ∃ u m l, bollinger_bands rates BOLLINGER_PERIOD BOLLINGER_STD = some (u, m, l) ∧
        (r : ℝ) ≤ l) ∧
    ((∃ s ∈ analyzeCurrencyRates c r rates, s.signal_type = "bollinger_high") ↔
      ∃ u m l, bollinger_bands rates BOLLINGER_PERIOD BOLLINGER_STD = some (u, m, l) ∧
        u ≤ (r : ℝ) ∧ ¬((r : ℝ) ≤ l)) ∧
    ((∃ s ∈ analyzeCurrencyRates c r rates, s.signal_type = "n_week_low") ↔
      ∃ low n, find_n_week_low rates 10 = .ok (some (low, n)) ∧ r ≤ low) ∧
    (∀ s ∈ analyzeCurrencyRates c r rates,
      ((s.signal_type = "rsi_oversold" ∨ s.signal_type = "rsi_overbought") →
        ∃ v, rsi rates RSI_PERIOD = some v ∧ s.indicator_value = some (v : ℝ)) ∧
      (s.signal_type = "bollinger_low" →
        ∃ u m l, bollinger_bands rates BOLLINGER_PERIOD BOLLINGER_STD = some (u, m, l) ∧
          s.indicator_value = some l) ∧
      (s.signal_type = "bollinger_high" →
        ∃ u m l, bollinger_bands rates BOLLINGER_PERIOD BOLLINGER_STD = some (u, m, l) ∧
          s.indicator_value = some u) ∧
      (s.signal_type = "n_week_low" →
        ∃ low n, find_n_week_low rates 10 = .ok (some (low, n)) ∧
          s.indicator_value = some (low : ℝ))) := by
  have hcases := analyzeCurrencyRates_mem_cases c r rates
  refine ⟨fun s hs => ⟨(hcases s hs).1, (hcases s hs).2.1⟩, ?_, ?_, ?_, ?_, ?_, fun s hs => ?_⟩
  · constructor
    · rintro ⟨s, hs, ht⟩
      rcases (hcases s hs).2.2 with ⟨h, _⟩ | (h | h) | ⟨h, v, h1, h2, _⟩ | ⟨h, _⟩ | ⟨h, _⟩ | ⟨h, _⟩ <;>
        first
          | (exact ⟨v, h1, h2⟩)
          | (exact absurd (h.symm.trans ht) (by decide))
    · rintro ⟨v, h1, h2⟩
      rcases rsiSignals_emit_low c r rates v h1 h2 with ⟨s, hs, ht⟩
      exact ⟨s, (mem_analyzeCurrencyRates_iff c r rates s).mpr (Or.inr (Or.inr (Or.inl hs))), ht⟩
  · constructor
    · rintro ⟨s, hs, ht⟩
      rcases (hcases s hs).2.2 with ⟨h, _⟩ | (h | h) | ⟨h, _⟩ | ⟨h, v, h1, h2, _⟩ | ⟨h, _⟩ | ⟨h, _⟩ <;>
        first
          | (exact ⟨v, h1, h2⟩)
          | (exact absurd (h.symm.trans ht) (by decide))
    · rintro ⟨v, h1, h2⟩
      rcases rsiSignals_emit_high c r rates v h1 h2 with ⟨s, hs, ht⟩
      exact ⟨s, (mem_analyzeCurrencyRates_iff c r rates s).mpr (Or.inr (Or.inr (Or.inl hs))), ht⟩
  · constructor
    · rintro ⟨s, hs, ht⟩
      rcases (hcases s hs).2.2 with ⟨h, _⟩ | (h | h) | ⟨h, _⟩ | ⟨h, _⟩ | ⟨h, u, m, l, h1, h2, _⟩ | ⟨h, _⟩ <;>
        first
          | (exact ⟨u, m, l, h1, h2⟩)
          | (exact absurd (h.symm.trans ht) (by decide))
    · rintro ⟨u, m, l, h1, h2⟩
      rcases bollingerSignals_emit_low c r rates u m l h1 h2 with ⟨s, hs, ht⟩
      exact ⟨s, (mem_analyzeCurrencyRates_iff c r rates s).mpr (Or.inr (Or.inr (Or.inr hs))), ht⟩
  · constructor
    · rintro ⟨s, hs, ht⟩
      rcases (hcases s hs).2.2 with ⟨h, _⟩ | (h | h) | ⟨h, _⟩ | ⟨h, _⟩ | ⟨h, _⟩ | ⟨h, u, m, l, h1, h2, h3, _⟩ <;>
        first
          | (exact ⟨u, m, l, h1, h2, h3⟩)
          | (exact absurd (h.symm.trans ht) (by decide))
    · rintro ⟨u, m, l, h1, h2, h3⟩
      rcases bollingerSignals_emit_high c r rates u m l h1 h2 h3 with ⟨s, hs, ht⟩
      exact ⟨s, (mem_analyzeCurrencyRates_iff c r rates s).mpr (Or.inr (Or.inr (Or.inr hs))), ht⟩
  · constructor
    · rintro ⟨s, hs, ht⟩
      rcases (hcases s hs).2.2 with ⟨h, low, n, h1, h2, _⟩ | (h | h) | ⟨h, _⟩ | ⟨h, _⟩ | ⟨h, _⟩ | ⟨h, _⟩ <;>
        first
          | (exact ⟨low, n, h1, h2⟩)
          | (exact absurd (h.symm.trans ht) (by decide))
    · rintro ⟨low, n, h1, h2⟩
      rcases nWeekLowSignals_emit c r rates low n h1 h2 with ⟨s, hs, ht⟩
      exact ⟨s, (mem_analyzeCurrencyRates_iff c r rates s).mpr (Or.inl hs), ht⟩
  · refine ⟨fun ht => ?_, fun ht => ?_, fun ht => ?_, fun ht => ?_⟩
    · rcases (hcases s hs).2.2 with ⟨h, _⟩ | (h | h) | ⟨h, v, h1, h2, h3⟩ | ⟨h, v, h1, h2, h3⟩ | ⟨h, _⟩ | ⟨h, _⟩ <;>
        first
          | (exact ⟨v, h1, h3⟩)
          | (rcases ht with ht | ht <;> exact absurd (h.symm.trans ht) (by decide))
    · rcases (hcases s hs).2.2 with ⟨h, _⟩ | (h | h) | ⟨h, _⟩ | ⟨h, _⟩ | ⟨h, u, m, l, h1, h2, h3⟩ | ⟨h, _⟩ <;>
        first
          | (exact ⟨u, m, l, h1, h3⟩)
          | (exact absurd (h.symm.trans ht) (by decide))
    · rcases (hcases s hs).2.2 with ⟨h, _⟩ | (h | h) | ⟨h, _⟩ | ⟨h, _⟩ | ⟨h, _⟩ | ⟨h, u, m, l, h1, h2, h3, h4⟩ <;>
        first
          | (exact ⟨u, m, l, h1, h4⟩)
          | (exact absurd (h.symm.trans ht) (by decide))
    · rcases (hcases s hs).2.2 with ⟨h, low, n, h1, h2, h3⟩ | (h | h) | ⟨h, _⟩ | ⟨h, _⟩ | ⟨h, _⟩ | ⟨h, _⟩ <;>
        first
          | (exact ⟨low, n, h1, h3⟩)
          | (exact absurd (h.symm.trans ht) (by decide))

/-- C1: the claim's "bollinger_high is emitted iff the rate is at or above
the upper band" fails on a flat 21-day history at rate 1000: the three bands
coincide at 1000, the rate is at (hence at-or-above) the upper band, yet no
`bollinger_high` signal is emitted because the `today_rate <= lower` branch
fires first. -/
theorem analyzeCurrencyRates_cex :
    (∃ u m l, bollinger_bands (List.replicate 21 (1000 : ℚ)) BOLLINGER_PERIOD BOLLINGER_STD =
        some (u, m, l) ∧ u ≤ ((1000 : ℚ) : ℝ)) ∧
    ∀ s ∈ analyzeCurrencyRates "USD" 1000 (List.replicate 21 1000),
      s.signal_type ≠ "bollinger_high" := by
  have hbb : bollinger_bands (List.replicate 21 (1000 : ℚ)) BOLLINGER_PERIOD BOLLINGER_STD =
      some (((1000 : ℚ) : ℝ), ((1000 : ℚ) : ℝ), ((1000 : ℚ) : ℝ)) :=
    bollinger_bands_replicate 1000 21 BOLLINGER_PERIOD BOLLINGER_STD
      (by rw [BOLLINGER_PERIOD]; norm_num) (by rw [BOLLINGER_PERIOD]; norm_num)
  constructor
  · exact ⟨_, _, _, hbb, le_refl _⟩
  · intro s hs ht
    rcases (analyzeCurrencyRates_mem_cases "USD" 1000 (List.replicate 21 1000) s hs).2.2 with
      ⟨h, _⟩ | (h | h) | ⟨h, _⟩ | ⟨h, _⟩ | ⟨h, _⟩ | ⟨h, u, m, l, h1, h2, h3, _⟩
    · exact absurd (h.symm.trans ht) (by decide)
    · exact absurd (h.symm.trans ht) (by decide)
    · exact absurd (h.symm.trans ht) (by decide)
    · exact absurd (h.symm.trans ht) (by decide)
    · exact absurd (h.symm.trans ht) (by decide)
    · exact absurd (h.symm.trans ht) (by decide)
    · rw [hbb] at h1
      simp only [Option.some.injEq, Prod.mk.injEq] at h1
      exact h3 (le_of_eq h1.2.2)
theorem analyze_step (provider : Provider) (today_rates : String → Option ℚ)
    (acc : List Signal) (currency : String) :
    (match today_rates currency with
      | none => acc
      | some today_rate =>
        match analyze_currency provider currency today_rate with
        | .ok signals => acc ++ signals
        | .error _ => acc) = acc ++ analyzePart provider today_rates currency := by
  rw [analyzePart]
  rcases today_rates currency with _ | r
  · simp
  · dsimp only
    rcases h : analyze_currency provider currency r with e | sigs <;> simp

/-- C2: `analyze` walks the tracked currencies in declared order ("USD" then
"JPY(100)") and returns the concatenation of their contributions, where a
currency absent from `today_rates` or whose analysis raised contributes
nothing; untracked currencies are ignored even when present, and an input
with no tracked currency yields the empty list; an exception for one tracked
currency leaves the other's signals in place. -/
theorem analyze_spec (provider : Provider) (today_rates : String → Option ℚ) :
    analyze provider today_rates =
      analyzePart provider today_rates "USD" ++ analyzePart provider today_rates "JPY(100)" ∧
    (today_rates "USD" = none → today_rates "JPY(100)" = none →
      analyze provider today_rates = []) ∧
    (∀ r e, today_rates "USD" = some r →
      analyze_currency provider "USD" r = .error e →
      analyze provider today_rates = analyzePart provider today_rates "JPY(100)") := by
  have hmain : analyze provider today_rates =
      analyzePart provider today_rates "USD" ++ analyzePart provider today_rates "JPY(100)" := by
    rw [analyze, TARGET_CURRENCIES]
    rw [List.foldl_cons, List.foldl_cons, List.foldl_nil]
    rw [analyze_step provider today_rates [] "USD"]
    rw [analyze_step provider today_rates _ "JPY(100)"]
    rw [List.nil_append]
  refine ⟨hmain, fun h1 h2 => ?_, fun r e h1 h2 => ?_⟩
  · rw [hmain, analyzePart, h1, analyzePart, h2]
    simp
  · rw [hmain, analyzePart, h1]
    dsimp only
    rw [h2]
    simp

/-- C2 witness: with a provider returning no history and a today-rates map
holding only an untracked currency, `analyze` returns the empty list. -/
theorem analyze_spec_witness :
    analyze (fun _ _ => .ok []) (fun c => if c = "EUR" then some 1500 else none) = [] :=
  (analyze_spec (fun _ _ => .ok []) (fun c => if c = "EUR" then some 1500 else none)).2.1
    (by simp) (by simp)
theorem mem_firstSeen (a : String) (l : List String) : a ∈ firstSeen l ↔ a ∈ l := by
  induction l with
  | nil => rfl
  | cons c cs ih =>
    rw [firstSeen]
    by_cases h : a = c
    · subst h
      simp
    · simp only [List.mem_cons, List.mem_filter]
      constructor
      · rintro (rfl | ⟨hmem, _⟩)
        · exact Or.inl rfl
        · exact Or.inr (ih.mp hmem)
      · rintro (rfl | hmem)
        · exact Or.inl rfl
        · exact Or.inr ⟨ih.mpr hmem, by simpa using h⟩

theorem firstSeen_append (l : List String) (c : String) :
    firstSeen (l ++ [c]) = if c ∈ l then firstSeen l else firstSeen l ++ [c] := by
  induction l with
  | nil => simp [firstSeen]
  | cons d ds ih =>
    show firstSeen (d :: (ds ++ [c])) = _
    rw [firstSeen, ih, firstSeen]
    by_cases hc : c ∈ ds
    · rw [if_pos hc, if_pos (List.mem_cons.mpr (Or.inr hc))]
    · rw [if_neg hc]
      by_cases hcd : c = d
      · subst hcd
        rw [if_pos (List.mem_cons.mpr (Or.inl rfl))]
        rw [List.filter_append]
        simp
      · rw [if_neg (by simp [hcd, hc])]
        rw [List.filter_append]
        have h0 : [c].filter (fun x => x ≠ d) = [c] := by simp [hcd]
        rw [h0]
        rfl

theorem filter_single_ne (s : Signal) (c : String) (h : ¬ s.currency = c) :
    [s].filter (fun x => x.currency = c) = [] := by
  simp [h]

theorem addSignal_groupedSpec (done : List Signal) (s : Signal) :
    addSignal (groupedSpec done) s = groupedSpec (done ++ [s]) := by
  have hkeys : ∀ c, c ∈ firstSeen (done.map (fun x => x.currency)) ↔
      c ∈ done.map (fun x => x.currency) := fun c => mem_firstSeen c _
  by_cases hseen : s.currency ∈ done.map (fun x => x.currency)
  · have hany : (groupedSpec done).any (fun p => p.1 = s.currency) = true := by
      rw [List.any_eq_true]
      refine ⟨(s.currency, done.filter (fun x => x.currency = s.currency)), ?_, by simp⟩
      rw [groupedSpec]
      exact List.mem_map.mpr ⟨s.currency, (hkeys _).mpr hseen, rfl⟩
    rw [addSignal, if_pos hany]
    rw [groupedSpec, groupedSpec, List.map_map]
    have hfs : firstSeen ((done ++ [s]).map (fun x => x.currency)) =
        firstSeen (done.map (fun x => x.currency)) := by
      rw [List.map_append, List.map_singleton, firstSeen_append, if_pos hseen]
    have hfs' : (done ++ [s]).map (fun x : Signal => x.currency) =
        done.map (fun x : Signal => x.currency) ++ [s.currency] := by
      rw [List.map_append, List.map_singleton]
    rw [show ((done ++ [s]).map (fun x : Signal => x.currency)) =
        ((done.map (fun x : Signal => x.currency)) ++ [s.currency]) from hfs']
    rw [firstSeen_append, if_pos hseen]
    refine List.map_congr_left fun c hc => ?_
    by_cases hcs : c = s.currency
    · subst hcs
      simp only [Function.comp_apply, if_pos rfl]
      rw [List.filter_append]
      simp
    · simp only [Function.comp_apply, if_neg hcs]
      rw [List.filter_append, filter_single_ne s c (fun h => hcs h.symm), List.append_nil]
  · have hany : (groupedSpec done).any (fun p => p.1 = s.currency) = false := by
      rw [List.any_eq_false]
      intro p hp
      rw [groupedSpec] at hp
      rcases List.mem_map.mp hp with ⟨c, hc, rfl⟩
      simp only [decide_eq_true_eq]
      intro h
      exact hseen (h ▸ (hkeys c).mp hc)
    rw [addSignal, hany]
    simp only [Bool.false_eq_true, if_false]
    rw [groupedSpec, groupedSpec]
    rw [show ((done ++ [s]).map (fun x : Signal => x.currency)) =
        ((done.map (fun x : Signal => x.currency)) ++ [s.currency]) from by
      rw [List.map_append, List.map_singleton]]
    rw [firstSeen_append, if_neg hseen]
    rw [List.map_append, List.map_singleton]
    congr 1
    · refine List.map_congr_left fun c hc => ?_
      have hcs : ¬ s.currency = c := by
        intro h
        exact hseen (h ▸ (hkeys c).mp hc)
      rw [List.filter_append, filter_single_ne s c hcs, List.append_nil]
    · rw [List.filter_append]
      have h1 : done.filter (fun x => x.currency = s.currency) = [] := by
        rw [List.filter_eq_nil_iff]
        intro a ha
        simp only [decide_eq_true_eq]
        intro h
        exact hseen (List.mem_map.mpr ⟨a, ha, h⟩)
      have h2 : [s].filter (fun x => x.currency = s.currency) = [s] := by
        simp
      rw [h1, h2, List.nil_append]

theorem groupByCurrency_eq (signals : List Signal) :
    groupByCurrency signals = groupedSpec signals := by
  suffices h : ∀ (rest done : List Signal),
      rest.foldl addSignal (groupedSpec done) = groupedSpec (done ++ rest) by
    have h0 := h signals []
    rw [groupByCurrency]
    simpa [groupedSpec, firstSeen] using h0
  intro rest
  induction rest with
  | nil => intro done; simp
  | cons s t ih =>
    intro done
    rw [List.foldl_cons, addSignal_groupedSpec done s, ih (done ++ [s])]
    rw [List.append_assoc]
    rfl

/-- C7: formatting an empty signal list gives the empty string; otherwise the
output is exactly one banner line followed, for each currency in
first-appearance order of the input, by a blank line and a block made of one
header line (currency glyph, localized name, code, and the first signal of
that group's rate with thousands separator and two decimals) and one
glyph-plus-message line per signal of that group. -/
theorem format_signals_spec :
    format_signals [] = "" ∧
    ∀ signals : List Signal, signals ≠ [] →
      format_signals signals =
        joinWith "\n" ("🚨 <b>환율 매수 신호 감지</b>" ::
          (firstSeen (signals.map (fun s => s.currency))).flatMap (fun c =>
            ["", joinWith "\n"
              (((CURRENCY_EMOJI c).getD "💱" ++ " <b>" ++ (CURRENCY_NAME c).getD c ++ "(" ++ c ++
                  ")</b>" ++ " - 현재: " ++
                  formatRate (signals.filter (fun s => s.currency = c)).headI.current_rate ++
                  "원") ::
                (signals.filter (fun s => s.currency = c)).map (fun s =>
                  (SIGNAL_EMOJI s.signal_type).getD "📌" ++ " " ++ s.message))])) := by
  constructor
  · rfl
  · intro signals hne
    rw [format_signals, if_neg (by simpa using hne)]
    rw [groupByCurrency_eq, groupedSpec]
    congr 1
    rw [List.flatMap_map]
    rfl
theorem isPrefixOf_append_right (t rest b : List Char) (h : t.isPrefixOf rest = true) :
    t.isPrefixOf (rest ++ b) = true := by
  rw [List.isPrefixOf_iff_prefix] at h ⊢
  exact h.trans (List.prefix_append rest b)

theorem tagOK_append (a b : List Char) (ha : tagOK a = true) (hb : tagOK b = true) :
    tagOK (a ++ b) = true := by
  induction a with
  | nil => exact hb
  | cons c rest ih =>
    rw [List.cons_append, tagOK]
    rw [tagOK] at ha
    split_ifs at ha ⊢ with hc
    · simp only [Bool.and_eq_true, Bool.or_eq_true] at ha ⊢
      obtain ⟨hpre, hrest⟩ := ha
      refine ⟨?_, ih hrest⟩
      rcases hpre with ((h1 | h2) | h3) | h4
      · exact Or.inl (Or.inl (Or.inl (isPrefixOf_append_right _ rest b h1)))
      · exact Or.inl (Or.inl (Or.inr (isPrefixOf_append_right _ rest b h2)))
      · exact Or.inl (Or.inr (isPrefixOf_append_right _ rest b h3))
      · exact Or.inr (isPrefixOf_append_right _ rest b h4)
    · exact ih ha

theorem tagFree_tagOK (l : List Char) (h : '<' ∉ l) : tagOK l = true := by
  induction l with
  | nil => rfl
  | cons c rest ih =>
    rw [tagOK]
    rw [if_neg (fun hc => h (by rw [← hc]; exact List.mem_cons_self c rest))]
    exact ih (fun hc => h (List.mem_cons_of_mem c hc))

theorem tagOK_joinWith (sep : String) (lines : List String)
    (hsep : tagOK sep.data = true) (h : ∀ x ∈ lines, tagOK x.data = true) :
    tagOK (joinWith sep lines).data = true := by
  induction lines with
  | nil => rfl
  | cons x rest ih =>
    match rest with
    | [] => exact h x (List.mem_singleton.mpr rfl)
    | y :: t =>
      have hjw : joinWith sep (x :: y :: t) = x ++ sep ++ joinWith sep (y :: t) := rfl
      rw [hjw, String.data_append, String.data_append]
      refine tagOK_append _ _ (tagOK_append _ _ (h x (List.mem_cons_self _ _)) hsep) ?_
      exact ih (fun z hz => h z (List.mem_cons_of_mem _ hz))

theorem digitCh_ne_lt (d : ℕ) : digitCh d ≠ '<' := by
  rw [digitCh]
  have h : d % 10 < 10 := Nat.mod_lt _ (by norm_num)
  set r := d % 10 with hr
  interval_cases r <;> decide

theorem mem_digitsAux (fuel n : ℕ) : ∀ c ∈ digitsAux fuel n, ∃ d, c = digitCh d := by
  induction fuel generalizing n with
  | zero => intro c hc; simp [digitsAux] at hc
  | succ f ih =>
    intro c hc
    match n with
    | 0 => simp [digitsAux] at hc
    | m + 1 =>
      rw [digitsAux] at hc
      rcases List.mem_cons.mp hc with rfl | hc
      · exact ⟨(m + 1) % 10, rfl⟩
      · exact ih _ c hc

theorem mem_commasAux (ds : List Char) : ∀ (i : ℕ), ∀ c ∈ commasAux i ds, c ∈ ds ∨ c = ',' := by
  induction ds with
  | nil => intro i c hc; simp [commasAux] at hc
  | cons d rest ih =>
    intro i c hc
    rw [commasAux] at hc
    split_ifs at hc with hi
    · rcases List.mem_cons.mp hc with rfl | hc
      · exact Or.inr rfl
      · rcases List.mem_cons.mp hc with rfl | hc
        · exact Or.inl (List.mem_cons_self _ _)
        · rcases ih (i + 1) c hc with h | h
          · exact Or.inl (List.mem_cons_of_mem _ h)
          · exact Or.inr h
    · rcases List.mem_cons.mp hc with rfl | hc
      · exact Or.inl (List.mem_cons_self _ _)
      · rcases ih (i + 1) c hc with h | h
        · exact Or.inl (List.mem_cons_of_mem _ h)
        · exact Or.inr h

theorem natStr_no_lt (n : ℕ) : '<' ∉ (natStr n).data := by
  rw [natStr]
  split_ifs with h
  · decide
  · intro hc
    rcases List.mem_reverse.mp hc with hc'
    rcases mem_digitsAux n n _ hc' with ⟨d, hd⟩
    exact digitCh_ne_lt d hd.symm

theorem intPartStr_no_lt (n : ℕ) : '<' ∉ (intPartStr n).data := by
  rw [intPartStr]
  split_ifs with h
  · decide
  · intro hc
    rcases List.mem_reverse.mp hc with hc'
    rcases mem_commasAux _ 0 _ hc' with hc'' | hc''
    · rcases mem_digitsAux n n _ hc'' with ⟨d, hd⟩
      exact digitCh_ne_lt d hd.symm
    · exact absurd hc'' (by decide)

theorem formatRate_no_lt (q : ℚ) : '<' ∉ (formatRate q).data := by
  rw [formatRate]
  intro hc
  rw [String.data_append, String.data_append, String.data_append] at hc
  rcases List.mem_append.mp hc with hc | hc
  · rcases List.mem_append.mp hc with hc | hc
    · rcases List.mem_append.mp hc with hc | hc
      · split_ifs at hc <;> exact absurd hc (by decide)
      · exact intPartStr_no_lt _ hc
    · exact absurd hc (by decide)
  · rcases hc with hc
    rw [twoFrac] at hc
    rcases List.mem_cons.mp hc with h | hc
    · exact digitCh_ne_lt _ h.symm
    · rcases List.mem_cons.mp hc with h | hc
      · exact digitCh_ne_lt _ h.symm
      · simp at hc

theorem currencyEmoji_tagOK (c : String) : tagOK ((CURRENCY_EMOJI c).getD "💱").data = true := by
  rw [CURRENCY_EMOJI]
  split_ifs <;> decide

theorem currencyName_tagOK (c : String) (hc : '<' ∉ c.data) :
    tagOK ((CURRENCY_NAME c).getD c).data = true := by
  rw [CURRENCY_NAME]
  split_ifs
  · rw [Option.getD_some]
    decide
  · rw [Option.getD_some]
    decide
  · rw [Option.getD_none]
    exact tagFree_tagOK _ hc

theorem signalEmoji_tagOK (t : String) : tagOK ((SIGNAL_EMOJI t).getD "📌").data = true := by
  rw [SIGNAL_EMOJI]
  split_ifs <;> decide

theorem formatSignalLine_tagOK (s : Signal) (hm : '<' ∉ s.message.data) :
    tagOK (formatSignalLine s).data = true := by
  rw [formatSignalLine]
  simp only [String.data_append]
  exact tagOK_append _ _ (tagOK_append _ _ (signalEmoji_tagOK _) (by decide))
    (tagFree_tagOK _ hm)

theorem formatCurrencyBlock_tagOK (c : String) (group : List Signal)
    (hc : '<' ∉ c.data) (hm : ∀ s ∈ group, '<' ∉ s.message.data) :
    tagOK (formatCurrencyBlock c group).data = true := by
  rw [formatCurrencyBlock]
  refine tagOK_joinWith _ _ (by decide) ?_
  intro x hx
  rcases List.mem_cons.mp hx with rfl | hx
  · simp only [String.data_append]
    refine tagOK_append _ _ ?_ (by decide)
    refine tagOK_append _ _ ?_ (tagFree_tagOK _ (formatRate_no_lt _))
    refine tagOK_append _ _ ?_ (by decide)
    refine tagOK_append _ _ ?_ (by decide)
    refine tagOK_append _ _ ?_ (tagFree_tagOK _ hc)
    refine tagOK_append _ _ ?_ (by decide)
    refine tagOK_append _ _ ?_ (currencyName_tagOK c hc)
    exact tagOK_append _ _ (currencyEmoji_tagOK c) (by decide)
  · rcases List.mem_map.mp hx with ⟨s, hs, rfl⟩
    exact formatSignalLine_tagOK s (hm s hs)

/-- C8 (amended): whenever every signal's currency and message fields are
free of the markup-opening character `<`, the formatter's whole output uses
only the allowed closed tag set (the bold tags it emits itself). -/
theorem format_signals_tags (signals : List Signal)
    (h : ∀ s ∈ signals, '<' ∉ s.currency.data ∧ '<' ∉ s.message.data) :
    OnlyAllowedTags (format_signals signals) := by
  rw [OnlyAllowedTags, format_signals]
  split_ifs with he
  · rfl
  · refine tagOK_joinWith _ _ (by decide) ?_
    intro x hx
    rcases List.mem_cons.mp hx with rfl | hx
    · decide
    · rw [groupByCurrency_eq] at hx
      rcases List.mem_flatMap.mp hx with ⟨p, hp, hxp⟩
      rw [groupedSpec] at hp
      rcases List.mem_map.mp hp with ⟨c, hcmem, rfl⟩
      rcases List.mem_cons.mp hxp with rfl | hxp
      · rfl
      · rcases List.mem_singleton.mp hxp with rfl
        have hc : '<' ∉ c.data := by
          rcases List.mem_map.mp ((mem_firstSeen c _).mp hcmem) with ⟨s, hs, rfl⟩
          exact (h s hs).1
        refine formatCurrencyBlock_tagOK c _ hc ?_
        intro s hs
        exact (h s (List.mem_filter.mp hs).1).2

/-- C8 witness: a concrete clean signal list formats to an output within the
allowed tag set. -/
theorem format_signals_tags_witness :
    OnlyAllowedTags (format_signals
      [{ currency := "USD", signal_type := "n_week_low", message := "m", current_rate := 7,
         indicator_value := none }]) :=
  format_signals_tags _ (by intro s hs; rw [List.mem_singleton.mp hs]; exact ⟨by decide, by decide⟩)

theorem formatRate_one : formatRate 1 = "1.00" := by
  rw [formatRate]
  have h1 : round ((1 : ℚ) * 100) = (100 : ℤ) := by
    have h : ((1 : ℚ) * 100) = ((100 : ℤ) : ℚ) := by norm_num
    rw [h, round_intCast]
  rw [h1]
  rfl

/-- C8: as stated over arbitrary field values the claim is false: a message
containing `<i>` flows into the output verbatim, so the output carries a tag
outside the allowed set. -/
theorem format_signals_tags_cex :
    ¬ OnlyAllowedTags (format_signals
      [{ currency := "USD", signal_type := "n_week_low", message := "<i>x", current_rate := 1,
         indicator_value := none }]) := by
  rw [OnlyAllowedTags]
  have heq : format_signals
      [{ currency := "USD", signal_type := "n_week_low", message := "<i>x", current_rate := 1,
         indicator_value := none }] =
      "🚨 <b>환율 매수 신호 감지</b>" ++ "\n" ++ ("" ++ "\n" ++
        (("💵" ++ " <b>" ++ "달러" ++ "(" ++ "USD" ++ ")</b>" ++ " - 현재: " ++
          formatRate 1 ++ "원") ++ "\n" ++ ("📉" ++ " " ++ "<i>x"))) := rfl
  rw [heq, formatRate_one]
  decide
theorem currencyName_none_of_emoji_none (c : String) (h : CURRENCY_EMOJI c = none) :
    CURRENCY_NAME c = none := by
  rw [CURRENCY_EMOJI] at h
  rw [CURRENCY_NAME]
  split_ifs at h with h1 h2
  rw [if_neg h1, if_neg h2]

theorem joinWith_cons_data (sep h : String) (l : List String) :
    ∃ post, (joinWith sep (h :: l)).data = h.data ++ post := by
  match l with
  | [] =>
    refine ⟨[], ?_⟩
    have hjw : joinWith sep [h] = h := rfl
    rw [hjw]
    simp
  | y :: t =>
    refine ⟨sep.data ++ (joinWith sep (y :: t)).data, ?_⟩
    have hjw : joinWith sep (h :: y :: t) = h ++ sep ++ joinWith sep (y :: t) := rfl
    rw [hjw, String.data_append, String.data_append, List.append_assoc]

theorem joinWith_data_mem (sep : String) (lines : List String) (x : String) (hx : x ∈ lines) :
    ∃ pre post, (joinWith sep lines).data = pre ++ x.data ++ post := by
  induction lines with
  | nil => simp at hx
  | cons y t ih =>
    cases t with
    | nil =>
      rcases List.mem_singleton.mp hx with rfl
      refine ⟨[], [], ?_⟩
      have hjw : joinWith sep [x] = x := rfl
      rw [hjw]
      simp
    | cons z t' =>
      have hjw : joinWith sep (y :: z :: t') = y ++ sep ++ joinWith sep (z :: t') := rfl
      rcases List.mem_cons.mp hx with rfl | hx'
      · refine ⟨[], sep.data ++ (joinWith sep (z :: t')).data, ?_⟩
        rw [hjw, String.data_append, String.data_append]
        simp [List.append_assoc]
      · rcases ih hx' with ⟨pre, post, hp⟩
        refine ⟨y.data ++ sep.data ++ pre, post, ?_⟩
        rw [hjw, String.data_append, String.data_append, hp]
        simp [List.append_assoc]

theorem formatCurrencyBlock_data (c : String) (group : List Signal) :
    ∃ post, (formatCurrencyBlock c group).data =
      ((CURRENCY_EMOJI c).getD "💱" ++ " <b>" ++ (CURRENCY_NAME c).getD c ++ "(" ++ c ++
        ")</b>" ++ " - 현재: " ++ formatRate group.headI.current_rate ++ "원").data ++ post := by
  have hb : formatCurrencyBlock c group =
      joinWith "\n" (((CURRENCY_EMOJI c).getD "💱" ++ " <b>" ++ (CURRENCY_NAME c).getD c ++
        "(" ++ c ++ ")</b>" ++ " - 현재: " ++ formatRate group.headI.current_rate ++ "원") ::
        group.map formatSignalLine) := rfl
  rw [hb]
  exact joinWith_cons_data _ _ _

/-- C10: every signal list containing a signal whose currency is outside the
known mapping still formats to a complete, non-empty message, and that
currency's group header falls back to the generic currency glyph with the raw
currency code as the displayed name (alongside the group's first signal's
formatted rate). -/
theorem format_signals_unknown_currency (signals : List Signal) (s : Signal)
    (hs : s ∈ signals) (h : CURRENCY_EMOJI s.currency = none) :
    format_signals signals ≠ "" ∧
    ∃ pre post, (format_signals signals).data =
      pre ++ ("💱" ++ " <b>" ++ s.currency ++ "(" ++ s.currency ++ ")</b>" ++ " - 현재: " ++
        formatRate (signals.filter (fun x => x.currency = s.currency)).headI.current_rate ++
        "원").data ++ post := by
  have hne : signals ≠ [] := by
    rintro rfl
    simp at hs
  have hname := currencyName_none_of_emoji_none s.currency h
  rw [format_signals, if_neg (by simpa using hne), groupByCurrency_eq, groupedSpec]
  have hmem : s.currency ∈ firstSeen (signals.map (fun x => x.currency)) :=
    (mem_firstSeen _ _).mpr (List.mem_map.mpr ⟨s, hs, rfl⟩)
  have hline : formatCurrencyBlock s.currency (signals.filter (fun x => x.currency = s.currency)) ∈
      ("🚨 <b>환율 매수 신호 감지</b>" ::
        ((firstSeen (signals.map (fun x => x.currency))).map
          (fun c => (c, signals.filter (fun x => x.currency = c)))).flatMap
          (fun p => ["", formatCurrencyBlock p.1 p.2])) := by
    refine List.mem_cons_of_mem _ (List.mem_flatMap.mpr ?_)
    exact ⟨(s.currency, signals.filter (fun x => x.currency = s.currency)),
      List.mem_map.mpr ⟨s.currency, hmem, rfl⟩, by simp⟩
  constructor
  · intro hemp
    rcases joinWith_cons_data "\n" "🚨 <b>환율 매수 신호 감지</b>"
      (((firstSeen (signals.map (fun x => x.currency))).map
        (fun c => (c, signals.filter (fun x => x.currency = c)))).flatMap
        (fun p => ["", formatCurrencyBlock p.1 p.2])) with ⟨post0, hp0⟩
    rw [hemp] at hp0
    rw [show ("" : String).data = [] from rfl] at hp0
    exact absurd (List.append_eq_nil.mp hp0.symm).1 (by decide)
  · rcases joinWith_data_mem "\n" _ _ hline with ⟨pre, post, hp⟩
    rcases formatCurrencyBlock_data s.currency
      (signals.filter (fun x => x.currency = s.currency)) with ⟨post2, hb⟩
    rw [h, hname, Option.getD_none, Option.getD_none] at hb
    refine ⟨pre, post2 ++ post, ?_⟩
    rw [hp, hb]
    simp [List.append_assoc]

/-- C10 witness: in a three-signal list headed by a known USD signal, the two
"EUR" signals form a group whose header renders with the generic glyph and
the raw code. -/
theorem format_signals_unknown_currency_witness :
    format_signals
      [{ currency := "USD", signal_type := "n_week_low", message := "a", current_rate := 1,
         indicator_value := none },
       { currency := "EUR", signal_type := "golden_cross", message := "b", current_rate := 2,
         indicator_value := none },
       { currency := "EUR", signal_type := "dead_cross", message := "c", current_rate := 3,
         indicator_value := none }] ≠ "" ∧
    ∃ pre post, (format_signals
      [{ currency := "USD", signal_type := "n_week_low", message := "a", current_rate := 1,
         indicator_value := none },
       { currency := "EUR", signal_type := "golden_cross", message := "b", current_rate := 2,
         indicator_value := none },
       { currency := "EUR", signal_type := "dead_cross", message := "c", current_rate := 3,
         indicator_value := none }]).data =
      pre ++ ("💱" ++ " <b>" ++ "EUR" ++ "(" ++ "EUR" ++ ")</b>" ++ " - 현재: " ++
        formatRate
          (([{ currency := "USD", signal_type := "n_week_low", message := "a",
               current_rate := 1, indicator_value := none },
             { currency := "EUR", signal_type := "golden_cross", message := "b",
               current_rate := 2, indicator_value := none },
             { currency := "EUR", signal_type := "dead_cross", message := "c",
               current_rate := 3, indicator_value := none }] : List Signal).filter
            (fun x => x.currency = "EUR")).headI.current_rate ++
        "원").data ++ post :=
  format_signals_unknown_currency
    [{ currency := "USD", signal_type := "n_week_low", message := "a", current_rate := 1,
       indicator_value := none },
     { currency := "EUR", signal_type := "golden_cross", message := "b", current_rate := 2,
       indicator_value := none },
     { currency := "EUR", signal_type := "dead_cross", message := "c", current_rate := 3,
       indicator_value := none }]
    { currency := "EUR", signal_type := "golden_cross", message := "b", current_rate := 2,
      indicator_value := none }
    (List.mem_cons_of_mem _ (List.mem_cons_self _ _)) (by decide)
/-- C6 witness: a three-element list with `min_days = 2` yields its minimum
and its length. -/
theorem find_n_week_low_spec_witness :
    ∃ m, find_n_week_low [3, 1, 2] 2 = .ok (some (m, ([3, 1, 2] : List ℚ).length)) ∧
      m ∈ ([3, 1, 2] : List ℚ) ∧ ∀ x ∈ ([3, 1, 2] : List ℚ), m ≤ x :=
  (find_n_week_low_spec [3, 1, 2] 2).2.2 (List.cons_ne_nil _ _) (by norm_num)

/-- C3 witness: on `[2, 0, 1]` with periods 1 and 2 the cross classification
is decided by the concrete prior-day and current-day averages. -/
theorem detect_ma_cross_spec_witness :
    (detect_ma_cross [2, 0, 1] 1 2 = some "golden_cross" ↔
      (0 : ℚ) < 1 ∧ (1 : ℚ) / 2 ≤ 1) ∧
    (detect_ma_cross [2, 0, 1] 1 2 = some "dead_cross" ↔
      (1 : ℚ) ≤ 0 ∧ (1 : ℚ) < 1 / 2) :=
  (detect_ma_cross_spec [2, 0, 1] 1 2).2 (by norm_num) (by norm_num) (by norm_num)
    1 (1 / 2) 0 1
    (by norm_num [moving_average, lastN])
    (by norm_num [moving_average, lastN])
    (by norm_num [moving_average, lastN])
    (by norm_num [moving_average, lastN])

/-- C4 witness: a concrete 16-point series has its RSI inside `[0, 100]`. -/
theorem rsi_spec_witness :
    (0 : ℚ) ≤ 4250 / 49 ∧ (4250 / 49 : ℚ) ≤ 100 :=
  (rsi_spec [1, 2, 3, 2, 1, 2, 3, 4, 5, 6, 7, 8, 9, 10, 11, 12] 14).1 (4250 / 49)
    (by norm_num [rsi, wilderAvgs, changesOf, wilderStep])

/-- C5 witness: twenty constant prices collapse the bands to the constant. -/
theorem bollinger_bands_spec_witness :
    bollinger_bands (List.replicate 20 5) 20 2 = some (((5 : ℚ) : ℝ), ((5 : ℚ) : ℝ), ((5 : ℚ) : ℝ)) :=
  (bollinger_bands_spec [] 20 2).2 5 20 (by norm_num) (by norm_num)

/-- C9 witness: on `[0, 7]` the two glyphs are the extreme ramp glyphs. -/
theorem sparkline_generate_spec_witness :
    (SparklineGenerator.generate (0 :: [7])).data =
      (0 :: [7]).map (sparkChar (([7] : List ℚ).foldl min 0) (([7] : List ℚ).foldl max 0)) ∧
    (∀ x ∈ (0 :: [7] : List ℚ),
      (x = ([7] : List ℚ).foldl min 0 →
        sparkChar (([7] : List ℚ).foldl min 0) (([7] : List ℚ).foldl max 0) x = '▁') ∧
      (x = ([7] : List ℚ).foldl max 0 →
        sparkChar (([7] : List ℚ).foldl min 0) (([7] : List ℚ).foldl max 0) x = '█') ∧
      (⌊(x - ([7] : List ℚ).foldl min 0) /
          (([7] : List ℚ).foldl max 0 - ([7] : List ℚ).foldl min 0) * 7⌋).toNat ≤ 7) :=
  sparkline_generate_spec.2.2.1 0 [7] (by norm_num [List.foldl])

/-- C1 witness: with no history, no RSI signal is emitted and none is due. -/
theorem analyzeCurrencyRates_spec_witness :
    (∃ s ∈ analyzeCurrencyRates "USD" 0 [], s.signal_type = "rsi_oversold") ↔
      ∃ v, rsi [] RSI_PERIOD = some v ∧ v ≤ RSI_OVERSOLD :=
  (analyzeCurrencyRates_spec "USD" 0 []).2.1

/-- C7 witness: the empty signal list formats to the empty string. -/
theorem format_signals_spec_witness : format_signals [] = "" :=
  format_signals_spec.1
